import Mathlib

/-
Verification of the Mist AP site-assignment pipeline (Flask_UI/core.py,
Flask_UI/app.py, cli/mist_assign_aps.py).

Python strings are modelled as lists of Unicode code points (`Str := List
Nat`).  `str.strip()` / `str.lower()` are modelled over the ASCII / Latin-1
range, which covers every character the pipeline manipulates; code points
outside that range are left untouched by `plower` exactly as Python leaves
untouched every character without a case mapping.
-/

namespace MistAP

/-- A Python `str` as its sequence of code points. -/
abbrev Str := List Nat

/-- Code points of a Lean string literal, used to transcribe the Python
string literals of the source. -/
def pyStr (s : String) : Str := s.toList.map Char.toNat

/-- Python whitespace as removed by `str.strip()` (ASCII / Latin-1 range):
tab, LF, VT, FF, CR, FS, GS, RS, US, space, NEL, NBSP. -/
def isspace (c : Nat) : Bool :=
  decide (c = 9 ∨ c = 10 ∨ c = 11 ∨ c = 12 ∨ c = 13 ∨ c = 28 ∨ c = 29 ∨
          c = 30 ∨ c = 31 ∨ c = 32 ∨ c = 133 ∨ c = 160)

/-- Left part of Python `str.strip()`: drop leading whitespace. -/
def lstrip (s : Str) : Str := s.dropWhile isspace

/-- Right part of Python `str.strip()`: drop trailing whitespace. -/
def rstrip (s : Str) : Str := (lstrip s.reverse).reverse

/-- Python `str.strip()`. -/
def pstrip (s : Str) : Str := rstrip (lstrip s)

/-- Python `str.lower()` on one code point (ASCII case mapping). -/
def lowerChar (c : Nat) : Nat := if 65 ≤ c ∧ c ≤ 90 then c + 32 else c

/-- Python `str.lower()`. -/
def plower (s : Str) : Str := s.map lowerChar

/-- Python `str.replace(a, b)` for one-character arguments. -/
def replaceChar (a b : Nat) (s : Str) : Str :=
  s.map (fun c => if c = a then b else c)

/-- The code point of `-`. -/
def hyphen : Nat := 45

/-- The code point of `:`. -/
def colon : Nat := 58

/-- Python `":".join` over two-character chunks: `[m[i:i+2] for i in range(0,12,2)]`
generalised to a full chunking of the list (the source only applies it to a
string of length exactly 12, where both agree). -/
def chunk2 : Str → List Str
  | c1 :: c2 :: rest => [c1, c2] :: chunk2 rest
  | [c] => [[c]]
  | [] => []

/-- Accumulator for `pysplit`. -/
def splitOnAux (sep : Nat) : Str → Str → List Str
  | [], acc => [acc.reverse]
  | c :: rest, acc =>
    if c = sep then acc.reverse :: splitOnAux sep rest []
    else splitOnAux sep rest (c :: acc)

/-- Python `str.split(sep)` for a one-character separator:
`pysplit sep "a:b" = ["a","b"]`, `pysplit sep "" = [""]`. -/
def pysplit (sep : Nat) (s : Str) : List Str := splitOnAux sep s []

/-- Function `normalize_mac` (Flask_UI/core.py:60-64, cli/mist_assign_aps.py:140-144):
strip, lower-case, turn hyphens to colons; a colon-free string of length 12
is regrouped into 6 colon-separated pairs. -/
def normalize_mac (mac : Str) : Str :=
  let m := replaceChar hyphen colon (plower (pstrip mac))
  if colon ∉ m ∧ m.length = 12 then List.intercalate [colon] (chunk2 m) else m

/-- Structure `RowIssue` (Flask_UI/core.py:11-16, cli/mist_assign_aps.py:41-46):
`row` is the 1-based data row number; row 0 marks a header-level issue. -/
structure RowIssue where
  row : Int
  field : Str
  value : Str
  message : Str
deriving DecidableEq

/-- An inventory entry as the core reads it: the remote service's JSON
objects carry more keys, but only `serial` and `mac` are consumed
(`i.get("serial")`, `i.get("mac")`); an absent key is `none`. -/
structure InvRec where
  serial : Option Str
  mac : Option Str
deriving DecidableEq

/-- Python truthiness of `i.get(k)` for a string-valued key: `None` and the
empty string are falsy. -/
def truthyOpt (o : Option Str) : Bool :=
  match o with
  | none => false
  | some s => !s.isEmpty

/-- Assignment to a Python `dict` key: an existing key keeps its position
and gets the new value, a new key is appended (insertion order). -/
def dictInsert (m : List (Str × InvRec)) (k : Str) (v : InvRec) :
    List (Str × InvRec) :=
  if m.any (fun p => decide (p.1 = k)) then
    m.map (fun p => if p.1 = k then (k, v) else p)
  else m ++ [(k, v)]

/-- Python `dict` lookup returning `None` for a missing key
(`m.get(k)`; `k in m` is `(alistGet m k).isSome`). -/
def alistGet (m : List (Str × InvRec)) (k : Str) : Option InvRec :=
  (m.find? (fun p => decide (p.1 = k))).map (fun p => p.2)

/-- The comprehension `inv_map = {str(i.get("serial","")).strip(): i for i in inventory if
i.get("serial")}` (Flask_UI/core.py:142, cli/mist_assign_aps.py:269). -/
def mkInvMap (inventory : List InvRec) : List (Str × InvRec) :=
  inventory.foldl
    (fun m i =>
      if truthyOpt i.serial then dictInsert m (pstrip (i.serial.getD [])) i
      else m)
    []

/-- One row of a normalized table as `iterrows` hands it to `row.get`:
column name paired with the cell (`none` models a missing value). -/
abbrev Row := List (Str × Option Str)

/-- Python `row.get(k)`: `none` when the column is absent or the cell is missing. -/
def rowGet (r : Row) (k : Str) : Option Str :=
  (r.find? (fun p => decide (p.1 = k))).bind (fun p => p.2)

/-- Python `row.get(k) or ""` and `row.get(k, "")`, which agree on string cells. -/
def rowGetD (r : Row) (k : Str) : Str := (rowGet r k).getD []

/-- A pandas data frame: column names plus rows of cells aligned with them
(`none` is a missing value / NaN). -/
structure DataFrame where
  cols : List Str
  rows : List (List (Option Str))
deriving DecidableEq

/-- The rows of a data frame as `iterrows` yields them. -/
def dfRecords (df : DataFrame) : List Row :=
  df.rows.map (fun cells => df.cols.zip cells)

/-- Column-name and message literals of the source. -/
def colFloor : Str := pyStr (r"floor #")

def colHostname : Str := pyStr (r"wap hostname")

def colSerial : Str := pyStr (r"serial number")

def colMac : Str := pyStr (r"mac address")

/-- The list `REQUIRED_COLUMNS` (Flask_UI/core.py:8, cli/mist_assign_aps.py:38). -/
def REQUIRED_COLUMNS : List Str := [colFloor, colHostname, colSerial, colMac]

def msgBlankSerial : Str := pyStr (r"Serial Number is blank")

def msgNotFound : Str := pyStr (r"Serial not found in Mist org inventory")

def msgBadMac : Str := pyStr (r"MAC Address format looks invalid")

def msgMissingCols : Str := pyStr (r"Missing required column(s)")

def fieldHeaders : Str := pyStr (r"headers")

def sSUCCESS : Str := pyStr (r"SUCCESS")

def sFAILED : Str := pyStr (r"FAILED")

/-- Python `", ".join` (the header issue's value). -/
def joinCommaSp (l : List Str) : Str := List.intercalate (pyStr (r", ")) l

/-- Python `" | ".join` (the report's pipe-joined cells). -/
def joinBar (l : List Str) : Str := List.intercalate (pyStr (r" | ")) l

/-- Function `_normalize_dataframe` (Flask_UI/core.py:76-84) = `normalize_dataframe`
(cli/mist_assign_aps.py:164-172): headers stripped and lower-cased, every
cell `fillna("")`, coerced to string and stripped. -/
def normalize_dataframe (df : DataFrame) : DataFrame :=
  { cols := df.cols.map (fun c => plower (pstrip c)),
    rows := df.rows.map (fun r => r.map (fun cell => some (pstrip (cell.getD [])))) }

/-- Function `_validate_headers` (Flask_UI/core.py:87-89) = `validate_headers`
(cli/mist_assign_aps.py:175-176). -/
def validate_headers (df : DataFrame) : List Str :=
  REQUIRED_COLUMNS.filter (fun c => !decide (c ∈ df.cols))

/-- The body of the `_validate_rows` loop for one row (Flask_UI/core.py:
97-113, cli/mist_assign_aps.py:182-195): each branch appends at most one
issue and moves to the next row. -/
def rowIssueFor (rownum : Int) (r : Row) (inv_map : List (Str × InvRec)) :
    Option RowIssue :=
  let serial := pstrip (rowGetD r colSerial)
  if serial = [] then
    some { row := rownum, field := colSerial, value := [], message := msgBlankSerial }
  else if alistGet inv_map serial = none then
    some { row := rownum, field := colSerial, value := serial, message := msgNotFound }
  else
    let mac_file := normalize_mac (rowGetD r colMac)
    if mac_file ≠ [] ∧ (pysplit colon mac_file).length ≠ 6 then
      some { row := rownum, field := colMac, value := rowGetD r colMac, message := msgBadMac }
    else none

/-- The `_validate_rows` loop from data index `idx` on (`rownum = idx + 1`). -/
def validateRowsAux (inv_map : List (Str × InvRec)) :
    Nat → List Row → List RowIssue
  | _, [] => []
  | idx, r :: rest =>
    match rowIssueFor ((idx : Int) + 1) r inv_map with
    | some i => i :: validateRowsAux inv_map (idx + 1) rest
    | none => validateRowsAux inv_map (idx + 1) rest

/-- Function `_validate_rows` (Flask_UI/core.py:92-115) = `validate_rows`
(cli/mist_assign_aps.py:179-197). -/
def validateRows (rows : List Row) (inv_map : List (Str × InvRec)) :
    List RowIssue :=
  validateRowsAux inv_map 0 rows

/-- Python `a or b` on strings. -/
def orStr (a b : Str) : Str := if a ≠ [] then a else b

/-- What the assignment loop leaves behind: `crash = some serial` models the
uncaught `KeyError` of `inv_map[serial]` (it aborts the loop; statuses of
the rows already processed were written before it). -/
structure ExecOut where
  crash : Option Str
  statuses : List Str
  errs : List Str
  ok : Nat
  bad : Nat
  calls : List (Str × Str)
deriving DecidableEq

/-- The assignment loop (Flask_UI/core.py:150-171, cli/mist_assign_aps.py:
292-307) from row index `idx` on.  `oracle k` is the remote outcome of the
assign call made for row `k`: `none` is success, `some e` the error detail
raised; `calls` records each `(site_id, mac)` PUT actually issued. -/
def executeAux (inv_map : List (Str × InvRec)) (site_id : Str)
    (oracle : Nat → Option Str) : Nat → List Row → ExecOut
  | _, [] => ⟨none, [], [], 0, 0, []⟩
  | idx, r :: rest =>
    let serial := pstrip (rowGetD r colSerial)
    match alistGet inv_map serial with
    | none => ⟨some serial, [], [], 0, 0, []⟩
    | some inv =>
      let mac := normalize_mac (orStr (inv.mac.getD []) (rowGetD r colMac))
      match oracle idx with
      | none =>
        let out := executeAux inv_map site_id oracle (idx + 1) rest
        ⟨out.crash, sSUCCESS :: out.statuses, [] :: out.errs,
         out.ok + 1, out.bad, (site_id, mac) :: out.calls⟩
      | some e =>
        let out := executeAux inv_map site_id oracle (idx + 1) rest
        ⟨out.crash, sFAILED :: out.statuses, e :: out.errs,
         out.ok, out.bad + 1, (site_id, mac) :: out.calls⟩

/-- The summary `{"success": ok, "failed": bad, "total": ok + bad}`. -/
structure Summary where
  success : Nat
  failed : Nat
  total : Nat
deriving DecidableEq

/-- An observable remote interaction of one `process_file` run. -/
inductive RemoteEvent where
  | fetchInventory
  | assign (site_id : Str) (mac : Str)
deriving DecidableEq

/-- Whether an event is an assign call. -/
def RemoteEvent.isAssign : RemoteEvent → Bool
  | .assign _ _ => true
  | .fetchInventory => false

/-- How a `process_file` run ends: `raise ValidationError(issues)`, an
uncaught `KeyError`, or the annotated table (its two outcome columns) with
the summary counts. -/
inductive PFResult where
  | validationError (issues : List RowIssue)
  | keyError (serial : Str)
  | ok (statuses : List Str) (errs : List Str) (summary : Summary)
deriving DecidableEq

/-- A run's result together with the remote calls it made, in order. -/
structure PFRun where
  result : PFResult
  events : List RemoteEvent
deriving DecidableEq

/-- Function `process_file` (Flask_UI/core.py:118-178); cli `main`
(mist_assign_aps.py:238-318) runs the same pipeline.  File reading and the
inventory fetch are the parameters `df_raw` and `inventory`; `oracle` gives
each row's remote assign outcome.  The two outcome columns the source adds
to the frame and fills via `df.at[idx, ...]` are carried as the parallel
`statuses`/`errs` lists of `PFResult.ok`; they do not influence any lookup
the pipeline performs on the frame. -/
def process_file (df_raw : DataFrame) (inventory : List InvRec)
    (site_id : Str) (oracle : Nat → Option Str) : PFRun :=
  let df := normalize_dataframe df_raw
  let missing := validate_headers df
  if missing ≠ [] then
    { result := .validationError
        [{ row := 0, field := fieldHeaders, value := joinCommaSp missing,
           message := msgMissingCols }],
      events := [] }
  else
    let inv_map := mkInvMap inventory
    let issues := validateRows (dfRecords df) inv_map
    if issues ≠ [] then
      { result := .validationError issues, events := [RemoteEvent.fetchInventory] }
    else
      let ex := executeAux inv_map site_id oracle 0 (dfRecords df)
      match ex.crash with
      | some s =>
        { result := .keyError s,
          events := RemoteEvent.fetchInventory ::
            ex.calls.map (fun p => RemoteEvent.assign p.1 p.2) }
      | none =>
        { result := .ok ex.statuses ex.errs ⟨ex.ok, ex.bad, ex.ok + ex.bad⟩,
          events := RemoteEvent.fetchInventory ::
            ex.calls.map (fun p => RemoteEvent.assign p.1 p.2) }

def colIssue : Str := pyStr (r"issue")

def colIssueField : Str := pyStr (r"issue_field")

def colIssueValue : Str := pyStr (r"issue_value")

/-- The key `by_row` files an issue under in `create_error_report`
(Flask_UI/core.py:199-204): `i.row <= 0` collapses to the header key 0. -/
def reportKey (i : RowIssue) : Int := if i.row ≤ 0 then 0 else i.row

/-- The group `by_row[n]` of `create_error_report`: the issues filed under key `n`,
in input order. -/
def byRowGroup (issues : List RowIssue) (n : Int) : List RowIssue :=
  issues.filter (fun i => decide (reportKey i = n))

/-- Function `create_error_report` (Flask_UI/core.py:182-229) without its I/O: the
returned report table.  Row `idx` gets the pipe-joined issue columns of
`by_row[idx+1]` (empty strings when the row has no group); with zero data
rows and a header-level group the report degenerates to one synthetic row. -/
def create_error_report (df : DataFrame) (issues : List RowIssue) : DataFrame :=
  let annotated : DataFrame :=
    { cols := df.cols ++ [colIssue, colIssueField, colIssueValue],
      rows := df.rows.enum.map (fun p =>
        let g := byRowGroup issues ((p.1 : Int) + 1)
        if g ≠ [] then
          p.2 ++ [some (joinBar (g.map (fun i => i.message))),
                  some (joinBar (g.map (fun i => i.field))),
                  some (joinBar (g.map (fun i => i.value)))]
        else p.2 ++ [some [], some [], some []]) }
  if byRowGroup issues 0 ≠ [] ∧ df.rows.length = 0 then
    { cols := [colIssue, colIssueField, colIssueValue],
      rows := [[some (joinBar ((byRowGroup issues 0).map (fun i => i.message))),
                some (joinBar ((byRowGroup issues 0).map (fun i => i.field))),
                some (joinBar ((byRowGroup issues 0).map (fun i => i.value)))]] }
  else annotated

/-- The group `by_row[n]` of the CLI's `create_validation_report`
(cli/mist_assign_aps.py:210-212): keyed by the raw `i.row`, no collapse of
header-level issues. -/
def byRowGroupCli (issues : List RowIssue) (n : Int) : List RowIssue :=
  issues.filter (fun i => decide (i.row = n))

/-- Function `create_validation_report` (cli/mist_assign_aps.py:200-227) without its
I/O: same annotation loop as `create_error_report`, but no degenerate
one-row branch for a header-only failure. -/
def create_validation_report (df : DataFrame) (issues : List RowIssue) :
    DataFrame :=
  { cols := df.cols ++ [colIssue, colIssueField, colIssueValue],
    rows := df.rows.enum.map (fun p =>
      let g := byRowGroupCli issues ((p.1 : Int) + 1)
      if g ≠ [] then
        p.2 ++ [some (joinBar (g.map (fun i => i.message))),
                some (joinBar (g.map (fun i => i.field))),
                some (joinBar (g.map (fun i => i.value)))]
      else p.2 ++ [some [], some [], some []]) }

/-- The row check exactly as the spec words it (spec §4.4): if the serial is
empty, a blank-serial issue and skip the rest of the row; else if the serial
is absent from the snapshot, a not-found issue and skip; else canonicalize
the MAC and flag it when non-empty and not 6 colon-separated groups. -/
def claimRowCheck (rownum : Int) (r : Row) (inv_map : List (Str × InvRec)) :
    Option RowIssue :=
  if pstrip (rowGetD r colSerial) = [] then
    some { row := rownum, field := colSerial, value := [],
           message := msgBlankSerial }
  else if alistGet inv_map (pstrip (rowGetD r colSerial)) = none then
    some { row := rownum, field := colSerial,
           value := pstrip (rowGetD r colSerial), message := msgNotFound }
  else if normalize_mac (rowGetD r colMac) ≠ [] ∧
      (pysplit colon (normalize_mac (rowGetD r colMac))).length ≠ 6 then
    some { row := rownum, field := colMac, value := rowGetD r colMac,
           message := msgBadMac }
  else none

/-- A lower-case hexadecimal digit. -/
def isLowerHexDigit (c : Nat) : Bool :=
  decide ((48 ≤ c ∧ c ≤ 57) ∨ (97 ≤ c ∧ c ≤ 102))

/-- The spec's canonical MAC shape (spec §3): lower-case, colon-separated,
6 groups of 2 hex digits. -/
def specCanonicalMac (s : Str) : Bool :=
  decide ((pysplit colon s).length = 6) &&
    (pysplit colon s).all (fun g => decide (g.length = 2) && g.all isLowerHexDigit)

/-! Concrete inputs used to instantiate the theorems below. -/

/-- A well-formed two-row input file, headers in the spreadsheet's own
spelling. -/
def exDf : DataFrame :=
  { cols := [pyStr (r"Floor #"), pyStr (r"WAP Hostname"),
             pyStr (r"Serial Number"), pyStr (r"Mac Address")],
    rows := [[some (pyStr (r"1")), some (pyStr (r"ap-01")),
              some (pyStr (r"S1")), some (pyStr (r"aa-bb-cc-dd-ee-ff"))],
             [some (pyStr (r"2")), some (pyStr (r"ap-02")),
              some (pyStr (r"S2")), none]]}

/-- A file missing the `WAP Hostname` column. -/
def exDfNoHostname : DataFrame :=
  { cols := [pyStr (r"Floor #"), pyStr (r"Serial Number"),
             pyStr (r"Mac Address")],
    rows := [[some (pyStr (r"1")), some (pyStr (r"S1")),
              some (pyStr (r"aa-bb-cc-dd-ee-ff"))]]}

/-- A structurally valid file whose row 1 serial is unknown. -/
def exDfUnknownSerial : DataFrame :=
  { cols := [pyStr (r"Floor #"), pyStr (r"WAP Hostname"),
             pyStr (r"Serial Number"), pyStr (r"Mac Address")],
    rows := [[some (pyStr (r"1")), some (pyStr (r"ap-01")),
              some (pyStr (r"XYZ123")), none]]}

/-- An inventory snapshot holding serials `S1` and `S2`. -/
def exInventory : List InvRec :=
  [{ serial := some (pyStr (r"S1")), mac := some (pyStr (r"aa:bb:cc:dd:ee:ff")) },
   { serial := some (pyStr (r"S2")), mac := none }]

/-- A remote that accepts the first assign call and rejects the second. -/
def exOracleFail2 (k : Nat) : Option Str :=
  if k = 1 then some (pyStr (r"HTTP 404")) else none

/-- A remote that accepts every assign call. -/
def exOracleOk (_ : Nat) : Option Str := none

/-- A row whose MAC is six colon-separated groups of non-hex characters. -/
def cexMacRow : Row :=
  [(colSerial, some (pyStr (r"S1"))),
   (colMac, some (pyStr (r"zz:zz:zz:zz:zz:zz")))]

end MistAP

namespace MistAP

theorem sanity_pipeline_ok :
    process_file exDf exInventory (pyStr (r"site-1")) exOracleFail2 =
      { result := .ok [sSUCCESS, sFAILED] [[], pyStr (r"HTTP 404")]
          ⟨1, 1, 2⟩,
        events := [RemoteEvent.fetchInventory,
                   RemoteEvent.assign (pyStr (r"site-1")) (pyStr (r"aa:bb:cc:dd:ee:ff")),
                   RemoteEvent.assign (pyStr (r"site-1")) []] } := by
  decide

theorem sanity_mac_hyphens :
    normalize_mac (pyStr (r"aa-bb-cc-dd-ee-ff")) = pyStr (r"aa:bb:cc:dd:ee:ff") := by
  decide

theorem sanity_mac_bare :
    normalize_mac (pyStr (r"aabbccddeeff")) = pyStr (r"aa:bb:cc:dd:ee:ff") := by
  decide

theorem sanity_split :
    (pysplit colon (pyStr (r"aa:bb:cc"))).length = 3 := by
  decide

/-- C7: a normalized header set missing at least one required column makes
the pipeline raise exactly one header-level issue (row 0, field `headers`)
whose value joins all missing column names with `", "`, and no remote call
at all is made (in particular the inventory fetch never happens). -/
theorem schemaGateSingleIssueBeforeFetch (df_raw : DataFrame)
    (inventory : List InvRec) (site_id : Str) (oracle : Nat → Option Str)
    (h : validate_headers (normalize_dataframe df_raw) ≠ []) :
    (process_file df_raw inventory site_id oracle).result =
      PFResult.validationError
        [{ row := 0, field := fieldHeaders,
           value := joinCommaSp (validate_headers (normalize_dataframe df_raw)),
           message := msgMissingCols }] ∧
    (process_file df_raw inventory site_id oracle).events = [] := by
  constructor <;> · simp only [process_file]; rw [if_pos h]

/-- C7 witness: a file missing the `WAP Hostname` column. -/
theorem schemaGateSingleIssueBeforeFetch_witness :
    (process_file exDfNoHostname exInventory (pyStr (r"site-1")) exOracleOk).result =
      PFResult.validationError
        [{ row := 0, field := fieldHeaders,
           value := joinCommaSp (validate_headers (normalize_dataframe exDfNoHostname)),
           message := msgMissingCols }] ∧
    (process_file exDfNoHostname exInventory (pyStr (r"site-1")) exOracleOk).events = [] :=
  schemaGateSingleIssueBeforeFetch exDfNoHostname exInventory
    (pyStr (r"site-1")) exOracleOk (by decide)

/-- C1: whenever the schema validator or the row validator produces any
issue, the run makes zero assign calls and ends by raising the full issue
list (the single header issue when columns are missing, otherwise the row
validator's complete list). -/
theorem allOrNoneGate (df_raw : DataFrame) (inventory : List InvRec)
    (site_id : Str) (oracle : Nat → Option Str)
    (h : validate_headers (normalize_dataframe df_raw) ≠ [] ∨
         validateRows (dfRecords (normalize_dataframe df_raw)) (mkInvMap inventory) ≠ []) :
    (process_file df_raw inventory site_id oracle).events.filter
        RemoteEvent.isAssign = [] ∧
    ∃ issues, issues ≠ [] ∧
      (process_file df_raw inventory site_id oracle).result =
        PFResult.validationError issues ∧
      issues = (if validate_headers (normalize_dataframe df_raw) ≠ []
                then [{ row := 0, field := fieldHeaders,
                        value := joinCommaSp (validate_headers (normalize_dataframe df_raw)),
                        message := msgMissingCols }]
                else validateRows (dfRecords (normalize_dataframe df_raw))
                       (mkInvMap inventory)) := by
  by_cases hm : validate_headers (normalize_dataframe df_raw) ≠ []
  · have hrun : process_file df_raw inventory site_id oracle =
        { result := PFResult.validationError
            [{ row := 0, field := fieldHeaders,
               value := joinCommaSp (validate_headers (normalize_dataframe df_raw)),
               message := msgMissingCols }],
          events := [] } := by
      simp only [process_file]; rw [if_pos hm]
    rw [hrun, if_pos hm]
    exact ⟨rfl, _, by simp, rfl, rfl⟩
  · have hv : validateRows (dfRecords (normalize_dataframe df_raw))
        (mkInvMap inventory) ≠ [] := h.resolve_left hm
    have hrun : process_file df_raw inventory site_id oracle =
        { result := PFResult.validationError
            (validateRows (dfRecords (normalize_dataframe df_raw)) (mkInvMap inventory)),
          events := [RemoteEvent.fetchInventory] } := by
      simp only [process_file]; rw [if_neg hm, if_pos hv]
    rw [hrun, if_neg hm]
    exact ⟨rfl, _, hv, rfl, rfl⟩

/-- The claim-worded per-row check and the loop body agree definitionally. -/
theorem claimRowCheck_eq_rowIssueFor (rownum : Int) (r : Row)
    (m : List (Str × InvRec)) : claimRowCheck rownum r m = rowIssueFor rownum r m := rfl

/-- The validation loop from index `idx` is the filterMap of the per-row
check over the rows enumerated from `idx`. -/
theorem validateRowsAux_eq (m : List (Str × InvRec)) :
    ∀ (rows : List Row) (idx : Nat),
      validateRowsAux m idx rows =
        (rows.enumFrom idx).filterMap
          (fun p => rowIssueFor ((p.1 : Int) + 1) p.2 m) := by
  intro rows
  induction rows with
  | nil => intro idx; rfl
  | cons r rest ih =>
    intro idx
    rw [List.enumFrom_cons]
    cases h : rowIssueFor ((idx : Int) + 1) r m with
    | none => simp only [validateRowsAux, List.filterMap_cons, h, ih (idx + 1)]
    | some i => simp only [validateRowsAux, List.filterMap_cons, h, ih (idx + 1)]

/-- A produced issue carries the row number it was checked at. -/
theorem rowIssueFor_row (n : Int) (r : Row) (m : List (Str × InvRec))
    (i : RowIssue) (h : rowIssueFor n r m = some i) : i.row = n := by
  simp only [rowIssueFor] at h
  split at h
  · cases h; rfl
  · split at h
    · cases h; rfl
    · split at h
      · cases h; rfl
      · cases h

/-- Every issue the loop emits from index `idx` has a row number in
`idx+1 .. idx + #rows`. -/
theorem validateRowsAux_row_bounds (m : List (Str × InvRec)) :
    ∀ (rows : List Row) (idx : Nat), ∀ i ∈ validateRowsAux m idx rows,
      (idx : Int) + 1 ≤ i.row ∧ i.row ≤ (idx : Int) + rows.length := by
  intro rows
  induction rows with
  | nil => intro idx i hi; simp [validateRowsAux] at hi
  | cons r rest ih =>
    intro idx i hi
    cases h : rowIssueFor ((idx : Int) + 1) r m with
    | none =>
      simp only [validateRowsAux, h] at hi
      have := ih (idx + 1) i hi
      push_cast at this ⊢
      constructor <;> [omega; (simp only [List.length_cons]; push_cast; omega)]
    | some j =>
      simp only [validateRowsAux, h] at hi
      rcases List.mem_cons.mp hi with rfl | hmem
      · have hr := rowIssueFor_row _ _ _ _ h
        rw [hr]
        simp only [List.length_cons]
        push_cast
        omega
      · have := ih (idx + 1) i hmem
        simp only [List.length_cons]
        push_cast at this ⊢
        omega

/-- The loop's issues appear in strictly increasing row order. -/
theorem validateRowsAux_chain (m : List (Str × InvRec)) :
    ∀ (rows : List Row) (idx : Nat),
      (validateRowsAux m idx rows).Chain' (fun a b => a.row < b.row) := by
  intro rows
  induction rows with
  | nil => intro idx; simp [validateRowsAux]
  | cons r rest ih =>
    intro idx
    cases h : rowIssueFor ((idx : Int) + 1) r m with
    | none => simp only [validateRowsAux, h]; exact ih (idx + 1)
    | some i =>
      simp only [validateRowsAux, h]
      refine List.chain'_cons'.mpr ⟨?_, ih (idx + 1)⟩
      intro b hb
      have hbmem := List.mem_of_mem_head? hb
      have hbd := validateRowsAux_row_bounds m rest (idx + 1) b hbmem
      have hr := rowIssueFor_row _ _ _ _ h
      rw [hr]
      push_cast at hbd
      omega

/-- A strictly row-increasing issue list holds at most one issue per row. -/
theorem count_row_le_one (l : List RowIssue)
    (hp : l.Pairwise (fun a b => a.row < b.row)) (n : Int) :
    (l.filter (fun i => decide (i.row = n))).length ≤ 1 := by
  induction l with
  | nil => simp
  | cons a t ih =>
    rcases List.pairwise_cons.mp hp with ⟨ha, ht⟩
    by_cases h : a.row = n
    · rw [List.filter_cons_of_pos (by simpa using h)]
      have hnil : t.filter (fun i => decide (i.row = n)) = [] := by
        rw [List.filter_eq_nil_iff]
        intro b hb
        have := ha b hb
        simp only [decide_eq_true_eq]
        omega
      rw [hnil]
      simp
    · rw [List.filter_cons_of_neg (by simpa using h)]
      exact ih ht

/-- C3: the row validator visits every row in input order (it never stops
at a bad row), emits at most one issue per row, numbers issues by the
1-based data row, produces them in strictly increasing row order, and each
row's verdict is the claim's fixed blank → not-found → MAC-format check. -/
theorem rowValidatorSemantics (rows : List Row) (m : List (Str × InvRec)) :
    validateRows rows m =
      rows.enum.filterMap (fun p => claimRowCheck ((p.1 : Int) + 1) p.2 m) ∧
    (∀ n : Int,
      ((validateRows rows m).filter (fun i => decide (i.row = n))).length ≤ 1) ∧
    (validateRows rows m).Chain' (fun a b => a.row < b.row) ∧
    (∀ i ∈ validateRows rows m, 1 ≤ i.row ∧ i.row ≤ rows.length) := by
  haveI : IsTrans RowIssue (fun a b => a.row < b.row) :=
    ⟨fun _ _ _ hab hbc => lt_trans hab hbc⟩
  have hchain := validateRowsAux_chain m rows 0
  refine ⟨?_, ?_, hchain, ?_⟩
  · have := validateRowsAux_eq m rows 0
    simpa [validateRows, List.enum] using this
  · intro n
    exact count_row_le_one _ (List.chain'_iff_pairwise.mp hchain) n
  · intro i hi
    have := validateRowsAux_row_bounds m rows 0 i hi
    push_cast at this
    omega

/-- C2 counterexample: the MAC `zz:zz:zz:zz:zz:zz` is non-empty, already its
own canonical form, and is not 6 groups of 2 lower-case hex digits, yet the
row validator accepts the row silently (the serial is present in the
snapshot, so the MAC check is reached). -/
theorem macHexNeverChecked_cex :
    normalize_mac (pyStr (r"zz:zz:zz:zz:zz:zz")) = pyStr (r"zz:zz:zz:zz:zz:zz") ∧
    pyStr (r"zz:zz:zz:zz:zz:zz") ≠ [] ∧
    specCanonicalMac (normalize_mac (pyStr (r"zz:zz:zz:zz:zz:zz"))) = false ∧
    validateRows [cexMacRow] (mkInvMap exInventory) = [] := by
  decide

/-- C2 (amended): `normalize_mac` canonicalizes `aa-bb-cc-dd-ee-ff` and
`aabbccddeeff` to `aa:bb:cc:dd:ee:ff`; and for every row whose serial passes
the blank and membership checks, a MAC is flagged with the mac-address
format issue exactly when its canonical form is non-empty and does not
split into exactly 6 colon-separated groups — group width, hex charset and
anything not fixed by lower-casing are not checked. -/
theorem macCanonicalizationAndFlagging :
    normalize_mac (pyStr (r"aa-bb-cc-dd-ee-ff")) = pyStr (r"aa:bb:cc:dd:ee:ff") ∧
    normalize_mac (pyStr (r"aabbccddeeff")) = pyStr (r"aa:bb:cc:dd:ee:ff") ∧
    ∀ (rownum : Int) (r : Row) (m : List (Str × InvRec)),
      pstrip (rowGetD r colSerial) ≠ [] →
      alistGet m (pstrip (rowGetD r colSerial)) ≠ none →
      (rowIssueFor rownum r m =
          some { row := rownum, field := colMac, value := rowGetD r colMac,
                 message := msgBadMac }
        ↔ normalize_mac (rowGetD r colMac) ≠ [] ∧
          (pysplit colon (normalize_mac (rowGetD r colMac))).length ≠ 6) := by
  refine ⟨by decide, by decide, ?_⟩
  intro rownum r m h1 h2
  simp only [rowIssueFor]
  rw [if_neg h1, if_neg h2]
  by_cases hc : normalize_mac (rowGetD r colMac) ≠ [] ∧
      (pysplit colon (normalize_mac (rowGetD r colMac))).length ≠ 6
  · rw [if_pos hc]
    simp [hc]
  · rw [if_neg hc]
    simp [hc]

/-- A row the validator's loop body accepts has a non-blank serial with a
successful snapshot lookup. -/
theorem rowIssueFor_none_serial (n : Int) (r : Row) (m : List (Str × InvRec))
    (h : rowIssueFor n r m = none) :
    pstrip (rowGetD r colSerial) ≠ [] ∧
      (alistGet m (pstrip (rowGetD r colSerial))).isSome := by
  by_cases h1 : pstrip (rowGetD r colSerial) = []
  · exfalso; simp [rowIssueFor, h1] at h
  · by_cases h2 : alistGet m (pstrip (rowGetD r colSerial)) = none
    · exfalso; simp [rowIssueFor, h1, h2] at h
    · exact ⟨h1, Option.isSome_iff_ne_none.mpr h2⟩

/-- When the loop emits no issue at all, every row passes the serial
checks. -/
theorem validateRowsAux_nil_serialOk (m : List (Str × InvRec)) :
    ∀ (rows : List Row) (idx : Nat), validateRowsAux m idx rows = [] →
      ∀ r ∈ rows, pstrip (rowGetD r colSerial) ≠ [] ∧
        (alistGet m (pstrip (rowGetD r colSerial))).isSome := by
  intro rows
  induction rows with
  | nil => intro idx _ r hr; cases hr
  | cons r0 rest ih =>
    intro idx h r hr
    cases hcase : rowIssueFor ((idx : Int) + 1) r0 m with
    | some i =>
      simp only [validateRowsAux, hcase] at h
      exact absurd h (List.cons_ne_nil _ _)
    | none =>
      simp only [validateRowsAux, hcase] at h
      rcases List.mem_cons.mp hr with rfl | hmem
      · exact rowIssueFor_none_serial _ _ _ hcase
      · exact ih (idx + 1) h r hmem

/-- The assignment loop never reaches its KeyError branch when every row's
serial resolves in the snapshot. -/
theorem executeAux_crash_none (m : List (Str × InvRec)) (site_id : Str)
    (oracle : Nat → Option Str) :
    ∀ (rows : List Row) (idx : Nat),
      (∀ r ∈ rows, (alistGet m (pstrip (rowGetD r colSerial))).isSome) →
      (executeAux m site_id oracle idx rows).crash = none := by
  intro rows
  induction rows with
  | nil => intro idx _; rfl
  | cons r rest ih =>
    intro idx hall
    obtain ⟨inv, hinv⟩ :=
      Option.isSome_iff_exists.mp (hall r (List.mem_cons_self r rest))
    have hrest := fun r' h' => hall r' (List.mem_cons_of_mem r h')
    cases horacle : oracle idx with
    | none => simp only [executeAux, hinv, horacle]; exact ih (idx + 1) hrest
    | some e => simp only [executeAux, hinv, horacle]; exact ih (idx + 1) hrest

/-- C5: when the row validator returns no issue for the given rows and
snapshot, every row's serial is non-blank and resolves in the snapshot, so
the executor's `inv_map[serial]` lookup succeeds on every row — its error
branch is unreachable for any site and any remote outcomes. -/
theorem executorLookupSafety (rows : List Row) (m : List (Str × InvRec))
    (h : validateRows rows m = []) :
    (∀ r ∈ rows, pstrip (rowGetD r colSerial) ≠ [] ∧
       (alistGet m (pstrip (rowGetD r colSerial))).isSome) ∧
    (∀ (site_id : Str) (oracle : Nat → Option Str),
       (executeAux m site_id oracle 0 rows).crash = none) := by
  have hok := validateRowsAux_nil_serialOk m rows 0 h
  exact ⟨hok, fun site_id oracle =>
    executeAux_crash_none m site_id oracle rows 0 (fun r hr => (hok r hr).2)⟩

/-- C5 witness: the two-row valid file against the two-entry snapshot. -/
theorem executorLookupSafety_witness :
    (∀ r ∈ dfRecords (normalize_dataframe exDf),
       pstrip (rowGetD r colSerial) ≠ [] ∧
       (alistGet (mkInvMap exInventory) (pstrip (rowGetD r colSerial))).isSome) ∧
    (∀ (site_id : Str) (oracle : Nat → Option Str),
       (executeAux (mkInvMap exInventory) site_id oracle 0
         (dfRecords (normalize_dataframe exDf))).crash = none) :=
  executorLookupSafety (dfRecords (normalize_dataframe exDf))
    (mkInvMap exInventory) (by decide)

/-- Executor accounting from any start index: when every serial resolves,
the loop records one status and one error cell per row, counts match the
row count, and row `k`'s outcome is decided by its own assign call alone. -/
theorem executeAux_spec (m : List (Str × InvRec)) (site_id : Str)
    (oracle : Nat → Option Str) :
    ∀ (rows : List Row) (idx : Nat),
      (∀ r ∈ rows, (alistGet m (pstrip (rowGetD r colSerial))).isSome) →
      (executeAux m site_id oracle idx rows).statuses.length = rows.length ∧
      (executeAux m site_id oracle idx rows).errs.length = rows.length ∧
      (executeAux m site_id oracle idx rows).ok +
        (executeAux m site_id oracle idx rows).bad = rows.length ∧
      ∀ k, k < rows.length →
        ((oracle (idx + k) = none ∧
          (executeAux m site_id oracle idx rows).statuses.getD k [] = sSUCCESS ∧
          (executeAux m site_id oracle idx rows).errs.getD k [] = []) ∨
         (∃ e, oracle (idx + k) = some e ∧
          (executeAux m site_id oracle idx rows).statuses.getD k [] = sFAILED ∧
          (executeAux m site_id oracle idx rows).errs.getD k [] = e)) := by
  intro rows
  induction rows with
  | nil => intro idx _; exact ⟨rfl, rfl, rfl, fun k hk => absurd hk (Nat.not_lt_zero k)⟩
  | cons r rest ih =>
    intro idx hall
    obtain ⟨inv, hinv⟩ :=
      Option.isSome_iff_exists.mp (hall r (List.mem_cons_self r rest))
    have hrest := fun r' h' => hall r' (List.mem_cons_of_mem r h')
    obtain ⟨hl1, hl2, hcount, hpt⟩ := ih (idx + 1) hrest
    cases horacle : oracle idx with
    | none =>
      simp only [executeAux, hinv, horacle]
      refine ⟨by simp [hl1], by simp [hl2], by simp only [List.length_cons]; omega, ?_⟩
      intro k hk
      cases k with
      | zero => exact Or.inl ⟨by simpa using horacle, rfl, rfl⟩
      | succ k =>
        have hidx : idx + (k + 1) = (idx + 1) + k := by omega
        rw [hidx]
        simpa using hpt k (by simpa using Nat.lt_of_succ_lt_succ hk)
    | some e =>
      simp only [executeAux, hinv, horacle]
      refine ⟨by simp [hl1], by simp [hl2], by simp only [List.length_cons]; omega, ?_⟩
      intro k hk
      cases k with
      | zero => exact Or.inr ⟨e, by simpa using horacle, rfl, rfl⟩
      | succ k =>
        have hidx : idx + (k + 1) = (idx + 1) + k := by omega
        rw [hidx]
        simpa using hpt k (by simpa using Nat.lt_of_succ_lt_succ hk)

/-- C6: after a clean gate the run ends in the table branch; each row is
marked SUCCESS or FAILED by its own remote call only — a failure is
recorded with its detail on that row alone and later rows are still
processed — and the counts satisfy success + failed = total = number of
data rows. -/
theorem perRowOutcomeAccounting (df_raw : DataFrame) (inventory : List InvRec)
    (site_id : Str) (oracle : Nat → Option Str)
    (hh : validate_headers (normalize_dataframe df_raw) = [])
    (hv : validateRows (dfRecords (normalize_dataframe df_raw)) (mkInvMap inventory) = []) :
    ∃ st er s f,
      (process_file df_raw inventory site_id oracle).result =
        PFResult.ok st er ⟨s, f, s + f⟩ ∧
      s + f = (normalize_dataframe df_raw).rows.length ∧
      st.length = (normalize_dataframe df_raw).rows.length ∧
      er.length = (normalize_dataframe df_raw).rows.length ∧
      ∀ k, k < (normalize_dataframe df_raw).rows.length →
        ((oracle k = none ∧ st.getD k [] = sSUCCESS ∧ er.getD k [] = []) ∨
         (∃ e, oracle k = some e ∧ st.getD k [] = sFAILED ∧ er.getD k [] = e)) := by
  have hlen : (dfRecords (normalize_dataframe df_raw)).length =
      (normalize_dataframe df_raw).rows.length := by
    simp [dfRecords]
  have hok :=
    validateRowsAux_nil_serialOk (mkInvMap inventory)
      (dfRecords (normalize_dataframe df_raw)) 0 hv
  have hisSome := fun r hr => (hok r hr).2
  obtain ⟨hl1, hl2, hcount, hpt⟩ :=
    executeAux_spec (mkInvMap inventory) site_id oracle
      (dfRecords (normalize_dataframe df_raw)) 0 hisSome
  have hcrash :=
    executeAux_crash_none (mkInvMap inventory) site_id oracle
      (dfRecords (normalize_dataframe df_raw)) 0 hisSome
  have hrun : process_file df_raw inventory site_id oracle =
      { result := PFResult.ok
          (executeAux (mkInvMap inventory) site_id oracle 0
            (dfRecords (normalize_dataframe df_raw))).statuses
          (executeAux (mkInvMap inventory) site_id oracle 0
            (dfRecords (normalize_dataframe df_raw))).errs
          ⟨(executeAux (mkInvMap inventory) site_id oracle 0
              (dfRecords (normalize_dataframe df_raw))).ok,
           (executeAux (mkInvMap inventory) site_id oracle 0
              (dfRecords (normalize_dataframe df_raw))).bad,
           (executeAux (mkInvMap inventory) site_id oracle 0
              (dfRecords (normalize_dataframe df_raw))).ok +
           (executeAux (mkInvMap inventory) site_id oracle 0
              (dfRecords (normalize_dataframe df_raw))).bad⟩,
        events := RemoteEvent.fetchInventory ::
          (executeAux (mkInvMap inventory) site_id oracle 0
            (dfRecords (normalize_dataframe df_raw))).calls.map
            (fun p => RemoteEvent.assign p.1 p.2) } := by
    simp only [process_file]
    rw [if_neg (by simp [hh]), if_neg (by simp [hv]), hcrash]
  refine ⟨_, _, _, _, by rw [hrun], by rw [← hlen]; exact hcount,
    by rw [← hlen]; exact hl1, by rw [← hlen]; exact hl2, ?_⟩
  intro k hk
  have := hpt k (by rw [hlen]; exact hk)
  simpa using this

/-- C6 witness: two valid rows, the remote accepting row 1's call and
rejecting row 2's. -/
theorem perRowOutcomeAccounting_witness :
    ∃ st er s f,
      (process_file exDf exInventory (pyStr (r"site-1")) exOracleFail2).result =
        PFResult.ok st er ⟨s, f, s + f⟩ ∧
      s + f = (normalize_dataframe exDf).rows.length ∧
      st.length = (normalize_dataframe exDf).rows.length ∧
      er.length = (normalize_dataframe exDf).rows.length ∧
      ∀ k, k < (normalize_dataframe exDf).rows.length →
        ((exOracleFail2 k = none ∧ st.getD k [] = sSUCCESS ∧ er.getD k [] = []) ∨
         (∃ e, exOracleFail2 k = some e ∧ st.getD k [] = sFAILED ∧
            er.getD k [] = e)) :=
  perRowOutcomeAccounting exDf exInventory (pyStr (r"site-1")) exOracleFail2
    (by decide) (by decide)

/-- Lookup in a cons cell. -/
theorem alistGet_cons (p : Str × InvRec) (t : List (Str × InvRec)) (s : Str) :
    alistGet (p :: t) s = if p.1 = s then some p.2 else alistGet t s := by
  by_cases h : p.1 = s
  · rw [if_pos h]
    unfold alistGet
    rw [List.find?_cons_of_pos _ (by simpa using h)]
    rfl
  · rw [if_neg h]
    unfold alistGet
    rw [List.find?_cons_of_neg _ (by simpa using h)]

/-- Overwriting key `k` leaves every other key's lookup unchanged. -/
theorem alistGet_map_replace_ne (k : Str) (v : InvRec) (s : Str) (hs : s ≠ k) :
    ∀ m : List (Str × InvRec),
      alistGet (m.map (fun p => if p.1 = k then (k, v) else p)) s = alistGet m s := by
  intro m
  induction m with
  | nil => rfl
  | cons p t ih =>
    by_cases hp : p.1 = k
    · rw [List.map_cons, if_pos hp, alistGet_cons, alistGet_cons,
        if_neg (fun h => hs h.symm),
        if_neg (by rw [hp]; exact fun h => hs h.symm)]
      exact ih
    · rw [List.map_cons, if_neg hp, alistGet_cons, alistGet_cons]
      by_cases hps : p.1 = s
      · rw [if_pos hps, if_pos hps]
      · rw [if_neg hps, if_neg hps]
        exact ih

/-- Overwriting an existing key `k` makes its lookup the new value. -/
theorem alistGet_map_replace_eq (k : Str) (v : InvRec) :
    ∀ m : List (Str × InvRec), m.any (fun p => decide (p.1 = k)) = true →
      alistGet (m.map (fun p => if p.1 = k then (k, v) else p)) k = some v := by
  intro m
  induction m with
  | nil => intro h; cases h
  | cons p t ih =>
    intro h
    by_cases hp : p.1 = k
    · rw [List.map_cons, if_pos hp, alistGet_cons, if_pos rfl]
    · rw [List.map_cons, if_neg hp, alistGet_cons, if_neg hp]
      apply ih
      simpa [List.any_cons, hp] using h

/-- Python dict assignment, observed through lookup. -/
theorem alistGet_dictInsert (m : List (Str × InvRec)) (k : Str) (v : InvRec)
    (s : Str) :
    alistGet (dictInsert m k v) s = if s = k then some v else alistGet m s := by
  unfold dictInsert
  by_cases hany : m.any (fun p => decide (p.1 = k)) = true
  · rw [if_pos hany]
    by_cases hs : s = k
    · subst hs
      rw [if_pos rfl]
      exact alistGet_map_replace_eq s v m hany
    · rw [if_neg hs]
      exact alistGet_map_replace_ne k v s hs m
  · rw [if_neg hany]
    have hnone : ∀ p ∈ m, ¬ p.1 = k := by
      intro p hp hcon
      exact hany (List.any_eq_true.mpr ⟨p, hp, by simp [hcon]⟩)
    by_cases hs : s = k
    · subst hs
      rw [if_pos rfl]
      unfold alistGet
      rw [List.find?_append,
        List.find?_eq_none.mpr (fun p hp => by simp [hnone p hp]),
        Option.none_or, List.find?_cons_of_pos _ (by simp)]
      rfl
    · rw [if_neg hs]
      unfold alistGet
      rw [List.find?_append,
        (by
          rw [List.find?_eq_none]
          intro p hp
          rw [List.mem_singleton] at hp
          subst hp
          simp only [decide_eq_true_eq]
          exact fun h => hs h.symm :
          List.find? (fun p => decide (p.1 = s)) [(k, v)] = none),
        Option.or_none]

/-- Lookup through the snapshot-building fold, for any accumulator: a key
resolves exactly when the accumulator or one of the kept entries supplies
it, and a looked-up record is either from the accumulator or one of the
entries keyed by its own trimmed serial. -/
theorem mkInvMap_fold_lookup :
    ∀ (l : List InvRec) (m : List (Str × InvRec)) (s : Str),
      ((alistGet (l.foldl (fun m i =>
          if truthyOpt i.serial then dictInsert m (pstrip (i.serial.getD [])) i
          else m) m) s).isSome ↔
        (alistGet m s).isSome ∨
          ∃ rec ∈ l, truthyOpt rec.serial = true ∧
            pstrip (rec.serial.getD []) = s) ∧
      (∀ rec', alistGet (l.foldl (fun m i =>
          if truthyOpt i.serial then dictInsert m (pstrip (i.serial.getD [])) i
          else m) m) s = some rec' →
        alistGet m s = some rec' ∨
          (rec' ∈ l ∧ truthyOpt rec'.serial = true ∧
            pstrip (rec'.serial.getD []) = s)) := by
  intro l
  induction l with
  | nil =>
    intro m s
    refine ⟨by simp, ?_⟩
    intro rec' h
    exact Or.inl h
  | cons i l ih =>
    intro m s
    rw [List.foldl_cons]
    by_cases hi : truthyOpt i.serial = true
    · rw [if_pos hi]
      obtain ⟨ih1, ih2⟩ := ih (dictInsert m (pstrip (i.serial.getD [])) i) s
      constructor
      · rw [ih1, alistGet_dictInsert]
        by_cases hs : s = pstrip (i.serial.getD [])
        · rw [if_pos hs]
          simp only [Option.isSome_some, true_or]
          constructor
          · intro _
            exact Or.inr ⟨i, List.mem_cons_self i l, hi, hs.symm⟩
          · intro _
            trivial
        · rw [if_neg hs]
          constructor
          · rintro (hm | ⟨rec, hrec, ht, hk⟩)
            · exact Or.inl hm
            · exact Or.inr ⟨rec, List.mem_cons_of_mem i hrec, ht, hk⟩
          · rintro (hm | ⟨rec, hrec, ht, hk⟩)
            · exact Or.inl hm
            · rcases List.mem_cons.mp hrec with rfl | hmem
              · exact absurd hk.symm hs
              · exact Or.inr ⟨rec, hmem, ht, hk⟩
      · intro rec' h
        rcases ih2 rec' h with hacc | ⟨hmem, ht, hk⟩
        · rw [alistGet_dictInsert] at hacc
          by_cases hs : s = pstrip (i.serial.getD [])
          · rw [if_pos hs] at hacc
            cases hacc
            exact Or.inr ⟨List.mem_cons_self i l, hi, hs.symm⟩
          · rw [if_neg hs] at hacc
            exact Or.inl hacc
        · exact Or.inr ⟨List.mem_cons_of_mem i hmem, ht, hk⟩
    · rw [if_neg hi]
      obtain ⟨ih1, ih2⟩ := ih m s
      constructor
      · rw [ih1]
        constructor
        · rintro (hm | ⟨rec, hrec, ht, hk⟩)
          · exact Or.inl hm
          · exact Or.inr ⟨rec, List.mem_cons_of_mem i hrec, ht, hk⟩
        · rintro (hm | ⟨rec, hrec, ht, hk⟩)
          · exact Or.inl hm
          · rcases List.mem_cons.mp hrec with rfl | hmem
            · exact absurd ht hi
            · exact Or.inr ⟨rec, hmem, ht, hk⟩
      · intro rec' h
        rcases ih2 rec' h with hacc | ⟨hmem, ht, hk⟩
        · exact Or.inl hacc
        · exact Or.inr ⟨List.mem_cons_of_mem i hmem, ht, hk⟩

/-- C9: the snapshot map is keyed by exact trimmed serial strings of the
entries whose serial is non-empty; a lookup succeeds precisely when such an
entry's trimmed serial equals the queried string — entries with empty
serial are discarded, and the stored record is one of the inventory's own
entries for that exact key. -/
theorem inventorySnapshotExactMatch (inventory : List InvRec) (s : Str) :
    ((alistGet (mkInvMap inventory) s).isSome ↔
      ∃ rec ∈ inventory, truthyOpt rec.serial = true ∧
        pstrip (rec.serial.getD []) = s) ∧
    ∀ rec', alistGet (mkInvMap inventory) s = some rec' →
      rec' ∈ inventory ∧ truthyOpt rec'.serial = true ∧
        pstrip (rec'.serial.getD []) = s := by
  obtain ⟨h1, h2⟩ := mkInvMap_fold_lookup inventory [] s
  constructor
  · rw [mkInvMap, h1]
    simp [alistGet]
  · intro rec' h
    rcases h2 rec' h with hacc | hmem
    · simp [alistGet] at hacc
    · exact hmem

/-- Pipe-joining one string is that string. -/
theorem joinBar_singleton (x : Str) : joinBar [x] = x := by
  simp [joinBar, List.intercalate]

/-- C8 counterexample: the CLI's report builder, handed a zero-row table
and the single header-level issue exactly as the CLI's missing-column path
hands them, returns a zero-row report, not the claimed one-row report. -/
theorem cliReportNoDegeneration_cex :
    (create_validation_report
        { cols := [colFloor, colHostname, colSerial, colMac], rows := [] }
        [{ row := 0, field := fieldHeaders, value := colHostname,
           message := msgMissingCols }]).rows = [] ∧
    ¬ (create_validation_report
        { cols := [colFloor, colHostname, colSerial, colMac], rows := [] }
        [{ row := 0, field := fieldHeaders, value := colHostname,
           message := msgMissingCols }]).rows.length = 1 := by
  decide

/-- C8 (amended): on a zero-row table with one header-level (row 0) issue,
the Flask core's `create_error_report` degenerates to the one-row report
carrying the issue's message, field and value in the three issue columns;
the CLI's `create_validation_report` has no such branch and returns a
zero-row report. -/
theorem reportDegeneration (cols : List Str) (i : RowIssue)
    (hrow : i.row = 0) :
    create_error_report { cols := cols, rows := [] } [i] =
      { cols := [colIssue, colIssueField, colIssueValue],
        rows := [[some i.message, some i.field, some i.value]] } ∧
    (create_validation_report { cols := cols, rows := [] } [i]).rows = [] := by
  have hkey : reportKey i = 0 := by simp [reportKey, hrow]
  have hgroup : byRowGroup [i] 0 = [i] := by simp [byRowGroup, hkey]
  constructor
  · unfold create_error_report
    rw [if_pos ⟨by rw [hgroup]; exact List.cons_ne_nil _ _, rfl⟩, hgroup]
    simp [joinBar_singleton]
  · rfl

/-- C8 witness for the amended claim: the CLI missing-column scenario's
header issue over the four required columns. -/
theorem reportDegeneration_witness :
    create_error_report
        { cols := [colFloor, colHostname, colSerial, colMac], rows := [] }
        [{ row := 0, field := fieldHeaders, value := colHostname,
           message := msgMissingCols }] =
      { cols := [colIssue, colIssueField, colIssueValue],
        rows := [[some msgMissingCols, some fieldHeaders, some colHostname]] } ∧
    (create_validation_report
        { cols := [colFloor, colHostname, colSerial, colMac], rows := [] }
        [{ row := 0, field := fieldHeaders, value := colHostname,
           message := msgMissingCols }]).rows = [] :=
  reportDegeneration [colFloor, colHostname, colSerial, colMac]
    { row := 0, field := fieldHeaders, value := colHostname,
      message := msgMissingCols } (by decide)

/-- C10: handed a table with data rows plus a header-level (row ≤ 0) issue,
`create_error_report` attaches that issue to no row: the grouping keys rows
1-based, key 0 never matches, the degenerate branch needs zero rows, so
every row's three issue columns stay empty strings. -/
theorem headerIssueUnattachedWithRows (df : DataFrame) (i : RowIssue)
    (hne : df.rows ≠ []) (hrow : i.row ≤ 0) :
    create_error_report df [i] =
      { cols := df.cols ++ [colIssue, colIssueField, colIssueValue],
        rows := df.rows.map (fun cells => cells ++ [some [], some [], some []]) } := by
  have hkey : reportKey i = 0 := by simp [reportKey, hrow]
  have hgroups : ∀ n : Nat, byRowGroup [i] ((n : Int) + 1) = [] := by
    intro n
    simp only [byRowGroup, List.filter_cons, List.filter_nil, hkey]
    rw [if_neg (by simp; omega)]
  unfold create_error_report
  rw [if_neg (fun hcon => hne (List.length_eq_zero.mp hcon.2))]
  have hbody : ∀ p ∈ df.rows.enum,
      (if byRowGroup [i] ((p.1 : Int) + 1) ≠ [] then
        p.2 ++ [some (joinBar ((byRowGroup [i] ((p.1 : Int) + 1)).map (fun j => j.message))),
                some (joinBar ((byRowGroup [i] ((p.1 : Int) + 1)).map (fun j => j.field))),
                some (joinBar ((byRowGroup [i] ((p.1 : Int) + 1)).map (fun j => j.value)))]
       else p.2 ++ [some [], some [], some []]) =
      p.2 ++ [some [], some [], some []] := by
    intro p _
    rw [if_neg (fun hcon => hcon (hgroups p.1))]
  congr 1
  rw [List.map_congr_left hbody]
  conv_rhs => rw [← List.enum_map_snd df.rows, List.map_map]
  rfl

/-- C10 witness: the two-row valid file with the header issue attached. -/
theorem headerIssueUnattachedWithRows_witness :
    create_error_report exDf
        [{ row := 0, field := fieldHeaders, value := colHostname,
           message := msgMissingCols }] =
      { cols := exDf.cols ++ [colIssue, colIssueField, colIssueValue],
        rows := exDf.rows.map (fun cells => cells ++ [some [], some [], some []]) } :=
  headerIssueUnattachedWithRows exDf
    { row := 0, field := fieldHeaders, value := colHostname,
      message := msgMissingCols } (by decide) (by decide)

/-- The head surviving a left strip is not whitespace. -/
theorem lstrip_head_not (s : Str) (x : Nat) (xs : Str)
    (h : lstrip s = x :: xs) : isspace x = false := by
  have hh := List.head?_dropWhile_not isspace s
  rw [show s.dropWhile isspace = lstrip s from rfl, h] at hh
  exact hh

/-- Left stripping is idempotent. -/
theorem lstrip_idem (s : Str) : lstrip (lstrip s) = lstrip s := by
  cases h : lstrip s with
  | nil => rfl
  | cons x xs =>
    have hx := lstrip_head_not s x xs h
    unfold lstrip
    rw [List.dropWhile_cons_of_neg (by simp [hx])]

/-- Right stripping is idempotent. -/
theorem rstrip_idem (s : Str) : rstrip (rstrip s) = rstrip s := by
  unfold rstrip
  rw [List.reverse_reverse, lstrip_idem]

/-- Right-stripping a left-stripped list leaves it left-stripped. -/
theorem lstrip_rstrip (u : Str) (hu : lstrip u = u) :
    lstrip (rstrip u) = rstrip u := by
  cases hw : rstrip u with
  | nil => rfl
  | cons x xs =>
    have h2 : (lstrip u.reverse).getLast? = some x := by
      have hh : (rstrip u).head? = some x := by rw [hw]; rfl
      rw [rstrip, List.head?_reverse] at hh
      exact hh
    obtain ⟨t, ht⟩ := List.dropWhile_suffix (l := u.reverse) isspace
    have h3 : u.reverse.getLast? = some x := by
      rw [← ht, List.getLast?_append,
        show u.reverse.dropWhile isspace = lstrip u.reverse from rfl, h2]
      rfl
    have h4 : u.head? = some x := by
      conv_lhs => rw [← List.reverse_reverse u]
      rw [List.head?_reverse]
      exact h3
    cases u with
    | nil => cases h4
    | cons y tl =>
      have hy : y = x := by simpa using h4
      subst hy
      have hns := lstrip_head_not (y :: tl) y tl hu
      unfold lstrip
      rw [List.dropWhile_cons_of_neg (by simp [hns])]

/-- Python `str.strip()` is idempotent. -/
theorem pstrip_idem (s : Str) : pstrip (pstrip s) = pstrip s := by
  unfold pstrip
  rw [lstrip_rstrip (lstrip s) (lstrip_idem s), rstrip_idem]

/-- ASCII lower-casing does not create or destroy whitespace. -/
theorem isspace_lowerChar (c : Nat) : isspace (lowerChar c) = isspace c := by
  unfold lowerChar
  split
  · rename_i h
    unfold isspace
    rw [decide_eq_decide]
    omega
  · rfl

/-- Lower-casing commutes with left stripping. -/
theorem lstrip_plower (s : Str) : lstrip (plower s) = plower (lstrip s) := by
  unfold lstrip plower
  rw [List.dropWhile_map, show (isspace ∘ lowerChar) = isspace from funext isspace_lowerChar]

/-- Lower-casing commutes with right stripping. -/
theorem rstrip_plower (s : Str) : rstrip (plower s) = plower (rstrip s) := by
  unfold rstrip
  rw [show (plower s).reverse = plower s.reverse from (List.map_reverse lowerChar s).symm,
    lstrip_plower,
    show (plower (lstrip s.reverse)).reverse = plower (lstrip s.reverse).reverse from
      (List.map_reverse lowerChar (lstrip s.reverse)).symm]

/-- Lower-casing commutes with `str.strip()`. -/
theorem pstrip_plower (s : Str) : pstrip (plower s) = plower (pstrip s) := by
  unfold pstrip
  rw [lstrip_plower, rstrip_plower]

/-- ASCII lower-casing one code point is idempotent. -/
theorem lowerChar_idem (c : Nat) : lowerChar (lowerChar c) = lowerChar c := by
  unfold lowerChar
  split_ifs <;> omega

/-- Python `str.lower()` is idempotent. -/
theorem plower_idem (s : Str) : plower (plower s) = plower s := by
  unfold plower
  rw [List.map_map]
  exact List.map_congr_left (fun a _ => lowerChar_idem a)

/-- C4: the normalizer — headers trimmed and lower-cased, cells coerced to
strings with missing values as empty strings and trimmed — is idempotent:
re-normalizing a normalized table yields the identical table. -/
theorem normalizerIdempotent (df : DataFrame) :
    normalize_dataframe (normalize_dataframe df) = normalize_dataframe df := by
  unfold normalize_dataframe
  congr 1
  · rw [List.map_map]
    apply List.map_congr_left
    intro c _
    show plower (pstrip (plower (pstrip c))) = plower (pstrip c)
    rw [pstrip_plower, pstrip_idem]
    exact plower_idem _
  · rw [List.map_map]
    apply List.map_congr_left
    intro r _
    show (r.map (fun cell => some (pstrip (cell.getD [])))).map
        (fun cell => some (pstrip (cell.getD []))) =
      r.map (fun cell => some (pstrip (cell.getD [])))
    rw [List.map_map]
    apply List.map_congr_left
    intro cell _
    show some (pstrip ((some (pstrip (cell.getD []))).getD [])) =
      some (pstrip (cell.getD []))
    rw [Option.getD_some, pstrip_idem]

/-- C1 witness: a structurally valid file whose only row has a serial absent
from the snapshot. -/
theorem allOrNoneGate_witness :
    (process_file exDfUnknownSerial exInventory (pyStr (r"site-1")) exOracleOk).events.filter
        RemoteEvent.isAssign = [] ∧
    ∃ issues, issues ≠ [] ∧
      (process_file exDfUnknownSerial exInventory (pyStr (r"site-1")) exOracleOk).result =
        PFResult.validationError issues ∧
      issues = (if validate_headers (normalize_dataframe exDfUnknownSerial) ≠ []
                then [{ row := 0, field := fieldHeaders,
                        value := joinCommaSp (validate_headers (normalize_dataframe exDfUnknownSerial)),
                        message := msgMissingCols }]
                else validateRows (dfRecords (normalize_dataframe exDfUnknownSerial))
                       (mkInvMap exInventory)) :=
  allOrNoneGate exDfUnknownSerial exInventory (pyStr (r"site-1")) exOracleOk
    (Or.inr (by decide))

end MistAP
